import Mathlib

/-!
Verification of the jigxel-engine core against its specification.

The Go sources are shallowly embedded:
  * the ECS world (package ecs: entities, components, systems) is embedded in
    namespace `ecs`, with Go maps (`map[EntityID]*Entity`, `map[string]Component`,
    `map[string][]Component`) rendered as association lists with
    overwrite-on-insert (`insertA`) and delete (`eraseA`), matching map
    semantics since keys never repeat under these operations;
  * `EntityID` is Go's `uint64`: the `nextEntityID++` counter is a natural
    number advanced modulo `2 ^ 64`;
  * the physics world (package physics) is embedded in namespace `physics`
    over the real numbers (the Go code uses `float64`; the idealised real
    model makes the arithmetic claims exact), with `math.Sqrt` as `Real.sqrt`;
  * Go interface values (`Component`, `System`) are records carrying the string
    returned by their `GetType`/`GetName` method plus an opaque payload that
    distinguishes instances;
  * map iteration (`for _, body := range w.bodies`) is iteration over the
    association list in storage order; every theorem below that depends on
    iteration is either order-insensitive or stated positionally.
-/

/-- Modulus of Go's `uint64`, the type of `ecs.EntityID` and body IDs. -/
def U64 : Nat := 2 ^ 64

/-- Association-list lookup: the value bound to the first occurrence of the
key, mirroring a Go map read (`v, ok := m[k]`, with `none` for a miss). -/
def lookupA {β : Type} : List (Nat × β) → Nat → Option β
  | [], _ => none
  | (k, v) :: rest, i => if k = i then some v else lookupA rest i

/-- Association-list lookup for string keys (component-type tags). -/
def lookupS {β : Type} : List (String × β) → String → Option β
  | [], _ => none
  | (k, v) :: rest, i => if k = i then some v else lookupS rest i

/-- Association-list overwrite-insert, mirroring a Go map write `m[k] = v`:
replaces the binding of `k` in place, or appends a fresh binding. -/
def insertA {β : Type} : List (Nat × β) → Nat → β → List (Nat × β)
  | [], k, v => [(k, v)]
  | (k0, v0) :: rest, k, v =>
    if k0 = k then (k, v) :: rest else (k0, v0) :: insertA rest k v

/-- String-keyed overwrite-insert, mirroring `m[k] = v`. -/
def insertS {β : Type} : List (String × β) → String → β → List (String × β)
  | [], k, v => [(k, v)]
  | (k0, v0) :: rest, k, v =>
    if k0 = k then (k, v) :: rest else (k0, v0) :: insertS rest k v

/-- Association-list delete, mirroring Go's `delete(m, k)`. -/
def eraseA {β : Type} (l : List (Nat × β)) (k : Nat) : List (Nat × β) :=
  l.filter (fun p => p.1 ≠ k)

/-- String-keyed delete, mirroring `delete(m, k)`. -/
def eraseS {β : Type} (l : List (String × β)) (k : String) : List (String × β) :=
  l.filter (fun p => p.1 ≠ k)

/-- The keys of an association list (a Go map's key set). -/
def keysOf {β : Type} (l : List (Nat × β)) : List Nat := l.map Prod.fst

namespace ecs

/-- A Go `ecs.Component` interface value: `tag` is what its `GetType()`
method returns (e.g. "transform", "tag"); `payload` distinguishes instances
of the same component type. -/
structure Component where
  tag : String
  payload : Nat
deriving DecidableEq, Repr

/-- `Component.GetType()`. -/
def Component.GetType (c : Component) : String := c.tag

/-- A Go `ecs.System` interface value: `name` is what its `GetName()` method
returns; `payload` distinguishes instances. (Its `Update` body never matters
for the claims below.) -/
structure System where
  name : String
  payload : Nat
deriving DecidableEq, Repr

/-- `System.GetName()`. -/
def System.GetName (s : System) : String := s.name

/-- `ecs.Entity`: ID, per-entity component map keyed by type tag, active flag. -/
structure Entity where
  id : Nat
  Components : List (String × Component)
  Active : Bool
deriving DecidableEq, Repr

/-- `ecs.World`: entity table, global per-type component list, system list,
and the `nextEntityID` counter (a `uint64`, kept below `U64`). -/
structure World where
  entities : List (Nat × Entity)
  components : List (String × List Component)
  systems : List System
  nextEntityID : Nat
deriving DecidableEq, Repr

/-- `ecs.NewWorld()`. -/
def NewWorld : World :=
  { entities := [], components := [], systems := [], nextEntityID := 0 }

/-- `World.CreateEntity`: allocates `nextEntityID`, advances the `uint64`
counter, stores a fresh entity with an empty component map and `Active: true`,
and returns the ID. -/
def World.CreateEntity (w : World) : Nat × World :=
  let entityID := w.nextEntityID
  let entity : Entity := { id := entityID, Components := [], Active := true }
  (entityID,
    { w with
      entities := insertA w.entities entityID entity
      nextEntityID := (w.nextEntityID + 1) % U64 })

/-- `World.removeComponentFromList` acting on the global per-type component
list: removes the first non-nil entry of the type's list ("simplified
removal" in the source; stored components are never nil, so the first entry
goes). The `entityID` parameter is unused, exactly as in the source. -/
def removeFromCompList (comps : List (String × List Component)) (_entityID : Nat)
    (componentType : String) : List (String × List Component) :=
  match lookupS comps componentType with
  | none => comps
  | some cl => insertS comps componentType cl.tail

/-- `World.removeComponentFromList`. -/
def World.removeComponentFromList (w : World) (entityID : Nat)
    (componentType : String) : World :=
  { w with components := removeFromCompList w.components entityID componentType }

/-- `World.DestroyEntity`: if present, removes each of the entity's component
types from the global per-type list, then deletes the entity record; no-op
if absent. -/
def World.DestroyEntity (w : World) (entityID : Nat) : World :=
  match lookupA w.entities entityID with
  | none => w
  | some entity =>
    let w1 := entity.Components.foldl
      (fun acc p => acc.removeComponentFromList entityID p.1) w
    { w1 with entities := eraseA w1.entities entityID }

/-- `World.AddComponent`: if the entity exists, overwrites the component under
its type tag in the entity's map and appends it to the global per-type list;
no-op if the entity does not exist. -/
def World.AddComponent (w : World) (entityID : Nat) (component : Component) : World :=
  match lookupA w.entities entityID with
  | none => w
  | some entity =>
    let componentType := component.GetType
    let entity1 := { entity with
      Components := insertS entity.Components componentType component }
    let oldList := (lookupS w.components componentType).getD []
    { w with
      entities := insertA w.entities entityID entity1
      components := insertS w.components componentType (oldList ++ [component]) }

/-- `World.RemoveComponent`: if the entity holds that type, deletes it from
the entity's map and removes one entry from the global per-type list. -/
def World.RemoveComponent (w : World) (entityID : Nat) (componentType : String) : World :=
  match lookupA w.entities entityID with
  | none => w
  | some entity =>
    match lookupS entity.Components componentType with
    | none => w
    | some _ =>
      let entity1 := { entity with
        Components := eraseS entity.Components componentType }
      let w1 := { w with entities := insertA w.entities entityID entity1 }
      w1.removeComponentFromList entityID componentType

/-- `World.GetComponent`: the entity's component of that type, or absent
(Go returns a nil interface on a miss of either map). -/
def World.GetComponent (w : World) (entityID : Nat) (componentType : String) :
    Option Component :=
  match lookupA w.entities entityID with
  | none => none
  | some entity => lookupS entity.Components componentType

/-- `World.GetEntitiesWithComponent`: IDs of the stored entities whose own
component map contains the type tag (the global per-type list is not read). -/
def World.GetEntitiesWithComponent (w : World) (componentType : String) : List Nat :=
  (w.entities.filter
    (fun p => (lookupS p.2.Components componentType).isSome)).map Prod.fst

/-- `World.AddSystem`: appends to the system list. -/
def World.AddSystem (w : World) (system : System) : World :=
  { w with systems := w.systems ++ [system] }

/-- The loop of `World.RemoveSystem`: splice out the first system whose
`GetName()` matches, then `break`. -/
def removeFirstSystem : List System → String → List System
  | [], _ => []
  | s :: rest, systemName =>
    if s.GetName = systemName then rest else s :: removeFirstSystem rest systemName

/-- `World.RemoveSystem`. -/
def World.RemoveSystem (w : World) (systemName : String) : World :=
  { w with systems := removeFirstSystem w.systems systemName }

/-- `World.GetEntityCount`. -/
def World.GetEntityCount (w : World) : Nat := w.entities.length

/-- `World.GetSystemCount`. -/
def World.GetSystemCount (w : World) : Nat := w.systems.length

/-- One call against the ECS world, for stating properties of operation
sequences. (`Update` only dispatches to registered systems and is not needed
by any claim over sequences.) -/
inductive Op where
  | createE : Op
  | destroyE (entityID : Nat) : Op
  | addComp (entityID : Nat) (component : Component) : Op
  | removeComp (entityID : Nat) (componentType : String) : Op
  | addSys (system : System) : Op
  | removeSys (systemName : String) : Op
deriving DecidableEq, Repr

/-- The state change of one operation (the ID a create returns is tracked by
`createdIds`). -/
def applyOp (w : World) : Op → World
  | .createE => (w.CreateEntity).2
  | .destroyE i => w.DestroyEntity i
  | .addComp i c => w.AddComponent i c
  | .removeComp i t => w.RemoveComponent i t
  | .addSys s => w.AddSystem s
  | .removeSys n => w.RemoveSystem n

/-- Running a sequence of operations. -/
def applyOps (w : World) : List Op → World
  | [] => w
  | op :: rest => applyOps (applyOp w op) rest

/-- Whether an operation is a `CreateEntity` call. -/
def isCreate : Op → Bool
  | .createE => true
  | _ => false

/-- How many `CreateEntity` calls a sequence makes. -/
def numCreates (ops : List Op) : Nat := (ops.filter isCreate).length

/-- The IDs returned by the `CreateEntity` calls of a sequence, in call order. -/
def createdIds (w : World) : List Op → List Nat
  | [] => []
  | op :: rest =>
    match op with
    | .createE => w.nextEntityID :: createdIds (applyOp w op) rest
    | _ => createdIds (applyOp w op) rest

end ecs

namespace physics

/-- `physics.Vector2`, over the idealised reals standing in for `float64`. -/
structure Vector2 where
  X : ℝ
  Y : ℝ

/-- `Vector2.Add`. -/
noncomputable def Vector2.Add (v other : Vector2) : Vector2 :=
  ⟨v.X + other.X, v.Y + other.Y⟩

/-- `Vector2.Sub`. -/
noncomputable def Vector2.Sub (v other : Vector2) : Vector2 :=
  ⟨v.X - other.X, v.Y - other.Y⟩

/-- `Vector2.Mul` (scalar multiple). -/
noncomputable def Vector2.Mul (v : Vector2) (scalar : ℝ) : Vector2 :=
  ⟨v.X * scalar, v.Y * scalar⟩

/-- `Vector2.Div` (scalar division). -/
noncomputable def Vector2.Div (v : Vector2) (scalar : ℝ) : Vector2 :=
  ⟨v.X / scalar, v.Y / scalar⟩

/-- `Vector2.Length`, `math.Sqrt` as the real square root. -/
noncomputable def Vector2.Length (v : Vector2) : ℝ :=
  Real.sqrt (v.X * v.X + v.Y * v.Y)

/-- `physics.RigidBody`. -/
structure RigidBody where
  id : Nat
  Position : Vector2
  Velocity : Vector2
  Force : Vector2
  Mass : ℝ
  InverseMass : ℝ
  Width : ℝ
  Height : ℝ
  Active : Bool

/-- `physics.World`: body table, gravity, nominal time step. Bodies are kept
as a list in storage order (the Go map keyed by `body.ID`). -/
structure PWorld where
  bodies : List RigidBody
  gravity : Vector2
  timeStep : ℝ

/-- `physics.NewWorld()`: empty body table, gravity `(0, -9.81)`, time step
`1/60`. -/
noncomputable def NewWorld : PWorld :=
  { bodies := [], gravity := ⟨0, -9.81⟩, timeStep := 1 / 60 }

/-- `physics.NewRigidBody`: derives inverse mass (`0` unless `mass > 0`),
starts at rest with no accumulated force, active. -/
noncomputable def NewRigidBody (id : Nat) (position : Vector2)
    (width height mass : ℝ) : RigidBody :=
  { id := id
    Position := position
    Velocity := ⟨0, 0⟩
    Force := ⟨0, 0⟩
    Mass := mass
    InverseMass := if mass > 0 then 1 / mass else 0
    Width := width
    Height := height
    Active := true }

/-- Keyed insert of `World.AddBody`: overwrite the body with the same ID or
add a new entry. -/
def insertBody : List RigidBody → RigidBody → List RigidBody
  | [], b => [b]
  | c :: cs, b => if c.id = b.id then b :: cs else c :: insertBody cs b

/-- `World.AddBody`. -/
def PWorld.AddBody (w : PWorld) (body : RigidBody) : PWorld :=
  { w with bodies := insertBody w.bodies body }

/-- `World.RemoveBody`. -/
def PWorld.RemoveBody (w : PWorld) (id : Nat) : PWorld :=
  { w with bodies := w.bodies.filter (fun b => b.id ≠ id) }

/-- `World.GetBody`. -/
def PWorld.GetBody (w : PWorld) (id : Nat) : Option RigidBody :=
  w.bodies.find? (fun b => b.id = id)

/-- `World.SetGravity`. -/
def PWorld.SetGravity (w : PWorld) (gravity : Vector2) : PWorld :=
  { w with gravity := gravity }

/-- The per-body half of `World.Update`: skip inactive bodies; otherwise
accumulate gravity into the force, integrate velocity and position
(explicit Euler), and reset the force. -/
noncomputable def integrateBody (gravity : Vector2) (deltaTime : ℝ)
    (body : RigidBody) : RigidBody :=
  if body.Active then
    let force := body.Force.Add (gravity.Mul body.Mass)
    let velocity := body.Velocity.Add ((force.Mul deltaTime).Mul body.InverseMass)
    let position := body.Position.Add (velocity.Mul deltaTime)
    { body with Force := ⟨0, 0⟩, Velocity := velocity, Position := position }
  else body

/-- `World.checkCollision`: the AABB overlap test between two bodies. -/
noncomputable def checkCollision (body1 body2 : RigidBody) : Bool :=
  let left1 := body1.Position.X - body1.Width / 2
  let right1 := body1.Position.X + body1.Width / 2
  let top1 := body1.Position.Y + body1.Height / 2
  let bottom1 := body1.Position.Y - body1.Height / 2
  let left2 := body2.Position.X - body2.Width / 2
  let right2 := body2.Position.X + body2.Width / 2
  let top2 := body2.Position.Y + body2.Height / 2
  let bottom2 := body2.Position.Y - body2.Height / 2
  decide (¬(right1 < left2 ∨ left1 > right2 ∨ bottom1 > top2 ∨ top1 < bottom2))

/-- The separation vector of `World.resolveCollision` after the zero-distance
fallback: body2's position minus body1's, or `(1, 0)` when they coincide. -/
noncomputable def resolveSeparation (body1 body2 : RigidBody) : Vector2 :=
  let separation0 := body2.Position.Sub body1.Position
  if separation0.Length = 0 then ⟨1, 0⟩ else separation0

/-- The distance of `World.resolveCollision` after the zero-distance fallback:
the center distance, or the substituted `1` when the centers coincide. -/
noncomputable def resolveDistance (body1 body2 : RigidBody) : ℝ :=
  let distance0 := (body2.Position.Sub body1.Position).Length
  if distance0 = 0 then 1 else distance0

/-- The normalized separation direction of `World.resolveCollision`. -/
noncomputable def resolveNormal (body1 body2 : RigidBody) : Vector2 :=
  (resolveSeparation body1 body2).Div (resolveDistance body1 body2)

/-- The overlap magnitude of `World.resolveCollision`:
`(body1.Width + body2.Width) / 2 - distance`, with `distance` already
substituted by `1` in the coincident case. -/
noncomputable def resolveOverlap (body1 body2 : RigidBody) : ℝ :=
  (body1.Width + body2.Width) / 2 - resolveDistance body1 body2

/-- `World.resolveCollision`: positional correction; each body with positive
inverse mass is pushed half the overlap along the separation direction. -/
noncomputable def resolveCollision (body1 body2 : RigidBody) :
    RigidBody × RigidBody :=
  let normal := resolveNormal body1 body2
  let overlap := resolveOverlap body1 body2
  if overlap > 0 then
    let separationVector := normal.Mul (overlap / 2)
    let b1 := if body1.InverseMass > 0 then
        { body1 with Position := body1.Position.Sub separationVector }
      else body1
    let b2 := if body2.InverseMass > 0 then
        { body2 with Position := body2.Position.Add separationVector }
      else body2
    (b1, b2)
  else (body1, body2)

/-- One inner-loop pair step of `World.checkCollisions`: resolve only if the
AABB test reports a collision. -/
noncomputable def collidePair (body1 body2 : RigidBody) : RigidBody × RigidBody :=
  if checkCollision body1 body2 then resolveCollision body1 body2 else (body1, body2)

/-- The inner `j` loop of `World.checkCollisions`: body `i` is resolved
against each later body in turn, both sides updated in place. -/
noncomputable def resolveAgainst (b : RigidBody) :
    List RigidBody → RigidBody × List RigidBody
  | [] => (b, [])
  | c :: cs =>
    let p := collidePair b c
    let q := resolveAgainst p.1 cs
    (q.1, p.2 :: q.2)

/-- The outer `i` loop of `World.checkCollisions` over the active bodies. -/
noncomputable def collisionPass : List RigidBody → List RigidBody
  | [] => []
  | b :: rest =>
    let p := resolveAgainst b rest
    p.1 :: collisionPass p.2
termination_by l => l.length
decreasing_by
  have h : ∀ (b0 : RigidBody) (l0 : List RigidBody),
      ((resolveAgainst b0 l0).2).length = l0.length := by
    intro b0 l0
    induction l0 generalizing b0 with
    | nil => rfl
    | cons c cs ih => simp [resolveAgainst, ih]
  simp [h]

/-- Merging the mutated active bodies back over the stored body list: the Go
pass mutates the filtered slice of active bodies through shared pointers, so
each active entry of the table is replaced by its processed version and each
inactive entry is untouched. -/
def mergeActives : List RigidBody → List RigidBody → List RigidBody
  | [], _ => []
  | b :: rest, upd =>
    if b.Active then
      match upd with
      | [] => b :: mergeActives rest []
      | u :: us => u :: mergeActives rest us
    else b :: mergeActives rest upd

/-- `World.checkCollisions`: collect the active bodies, run the pairwise
pass over them, and store the results back. -/
noncomputable def checkCollisionsList (l : List RigidBody) : List RigidBody :=
  mergeActives l (collisionPass (l.filter (fun b => b.Active)))

/-- `World.Update`: integrate every body, then run the collision pass. -/
noncomputable def PWorld.Update (w : PWorld) (deltaTime : ℝ) : PWorld :=
  { w with
    bodies := checkCollisionsList (w.bodies.map (integrateBody w.gravity deltaTime)) }

/-- How one collision-resolution step may change a body: every field except
`Position` is preserved, and `Position` too is preserved whenever the body's
inverse mass is not positive (the push is guarded by `InverseMass > 0`). -/
def BodyCorr (a b : RigidBody) : Prop :=
  b.id = a.id ∧ b.Velocity = a.Velocity ∧ b.Force = a.Force ∧ b.Mass = a.Mass ∧
    b.InverseMass = a.InverseMass ∧ b.Width = a.Width ∧ b.Height = a.Height ∧
    b.Active = a.Active ∧ (a.InverseMass ≤ 0 → b.Position = a.Position)

/-- A zero-mass (immovable) body at rest, for concrete instances. -/
noncomputable def restBody : RigidBody :=
  { id := 1, Position := ⟨2, 3⟩, Velocity := ⟨0, 0⟩, Force := ⟨0, 0⟩, Mass := 0,
    InverseMass := 0, Width := 1, Height := 1, Active := true }

/-- A physics world holding only `restBody`. -/
noncomputable def restWorld : PWorld :=
  { bodies := [restBody], gravity := ⟨0, -9.81⟩, timeStep := 1 / 60 }

/-- A zero-mass body with non-zero velocity, for concrete instances. -/
noncomputable def driftBody : RigidBody :=
  { id := 1, Position := ⟨0, 0⟩, Velocity := ⟨1, 0⟩, Force := ⟨0, 0⟩, Mass := 0,
    InverseMass := 0, Width := 1, Height := 1, Active := true }

/-- A physics world holding only `driftBody`. -/
noncomputable def driftWorld : PWorld :=
  { bodies := [driftBody], gravity := ⟨0, -9.81⟩, timeStep := 1 / 60 }

/-- A unit-width, unit-mass body at the origin (coincident-centers instance). -/
noncomputable def coinA : RigidBody :=
  { id := 1, Position := ⟨0, 0⟩, Velocity := ⟨0, 0⟩, Force := ⟨0, 0⟩, Mass := 1,
    InverseMass := 1, Width := 1, Height := 1, Active := true }

/-- A second unit-width, unit-mass body at the same origin. -/
noncomputable def coinB : RigidBody :=
  { id := 2, Position := ⟨0, 0⟩, Velocity := ⟨0, 0⟩, Force := ⟨0, 0⟩, Mass := 1,
    InverseMass := 1, Width := 1, Height := 1, Active := true }

/-- An inactive body with non-zero velocity and accumulated force. -/
noncomputable def inactBody : RigidBody :=
  { id := 1, Position := ⟨0, 0⟩, Velocity := ⟨5, 5⟩, Force := ⟨1, 1⟩, Mass := 1,
    InverseMass := 1, Width := 1, Height := 1, Active := false }

/-- An active unit-mass body away from the origin. -/
noncomputable def actBody : RigidBody :=
  { id := 2, Position := ⟨10, 10⟩, Velocity := ⟨0, 0⟩, Force := ⟨0, 0⟩, Mass := 1,
    InverseMass := 1, Width := 1, Height := 1, Active := true }

end physics

namespace ecs

/-- Repeated `AddComponent` calls for one entity, in call order (for the
overwrite-semantics property). -/
def applyAdds (w : World) (entityID : Nat) (cs : List Component) : World :=
  cs.foldl (fun acc c => acc.AddComponent entityID c) w

/-- Agreement of two entity-table entries everywhere except the `Active`
flag: same key, same ID, same component map. -/
def EntAgree (p q : Nat × Entity) : Prop :=
  p.1 = q.1 ∧ p.2.id = q.2.id ∧ p.2.Components = q.2.Components

/-- Agreement of two ECS worlds everywhere except entities' `Active` flags. -/
def WorldAgree (w1 w2 : World) : Prop :=
  List.Forall₂ EntAgree w1.entities w2.entities ∧
    w1.components = w2.components ∧ w1.systems = w2.systems ∧
    w1.nextEntityID = w2.nextEntityID

/-- Agreement of two entity lookup results up to the `Active` flag. -/
def OptEntAgree : Option Entity → Option Entity → Prop
  | none, none => True
  | some a, some b => a.id = b.id ∧ a.Components = b.Components
  | _, _ => False

/-- A concrete tag component used by concrete instances below. -/
def tagC : Component := ⟨"tag", 7⟩

/-- The operation sequence that recreates entity 0 after its destruction:
enough `CreateEntity` calls to wrap the `uint64` counter back to 0, then one
more create (returning 0 again) and an `AddComponent` on the recreated 0. -/
def wrapOps : List Op :=
  List.replicate (U64 - 1) Op.createE ++ [Op.createE, Op.addComp 0 tagC]

/-- The entity record `CreateEntity` stores for a fresh ID. -/
def blankEntity (k : Nat) : Entity := { id := k, Components := [], Active := true }

/-- The entity table after IDs `1 .. 2 ^ 64 - 1` have been created. -/
def bigTable : List (Nat × Entity) := (List.range' 1 (U64 - 1)).map (fun k => (k, blankEntity k))

/-- A concrete world whose single entity is active (for the Active-flag
obliviousness instance). -/
def wActive : World :=
  ⟨[(0, ⟨0, [("tag", tagC)], true⟩)], [("tag", [tagC])], [], 1⟩

/-- The same world with the entity's `Active` flag cleared. -/
def wInactive : World :=
  ⟨[(0, ⟨0, [("tag", tagC)], false⟩)], [("tag", [tagC])], [], 1⟩

end ecs

section AssocLemmas

variable {β : Type}

theorem lookupS_insertS_self (l : List (String × β)) (k : String) (v : β) :
    lookupS (insertS l k v) k = some v := by
  induction l with
  | nil => simp [insertS, lookupS]
  | cons p rest ih =>
    by_cases h : p.1 = k
    · simp [insertS, h, lookupS]
    · simp [insertS, h, lookupS, ih]

theorem lookupS_insertS_ne (l : List (String × β)) (k i : String) (v : β)
    (h : k ≠ i) : lookupS (insertS l k v) i = lookupS l i := by
  induction l with
  | nil => simp [insertS, lookupS, h]
  | cons p rest ih =>
    by_cases hp : p.1 = k
    · simp [insertS, hp, lookupS, h]
    · simp [insertS, hp, lookupS, ih]

theorem lookupA_insertA_self (l : List (Nat × β)) (k : Nat) (v : β) :
    lookupA (insertA l k v) k = some v := by
  induction l with
  | nil => simp [insertA, lookupA]
  | cons p rest ih =>
    by_cases h : p.1 = k
    · simp [insertA, h, lookupA]
    · simp [insertA, h, lookupA, ih]

theorem lookupA_insertA_ne (l : List (Nat × β)) (k i : Nat) (v : β)
    (h : k ≠ i) : lookupA (insertA l k v) i = lookupA l i := by
  induction l with
  | nil => simp [insertA, lookupA, h]
  | cons p rest ih =>
    by_cases hp : p.1 = k
    · simp [insertA, hp, lookupA, h]
    · simp [insertA, hp, lookupA, ih]

theorem lookupA_eraseA_self (l : List (Nat × β)) (k : Nat) :
    lookupA (eraseA l k) k = none := by
  induction l with
  | nil => simp [eraseA, lookupA]
  | cons p rest ih =>
    by_cases h : p.1 = k
    · simpa [eraseA, h] using ih
    · simpa [eraseA, h, lookupA] using ih

theorem lookupA_eraseA_ne (l : List (Nat × β)) (k i : Nat) (h : k ≠ i) :
    lookupA (eraseA l k) i = lookupA l i := by
  induction l with
  | nil => simp [eraseA]
  | cons p rest ih =>
    by_cases hp : p.1 = k
    · have hpi : p.1 ≠ i := by rw [hp]; exact h
      rw [show eraseA (p :: rest) k = eraseA rest k by simp [eraseA, hp]]
      rw [ih, lookupA, if_neg hpi]
    · rw [show eraseA (p :: rest) k = p :: eraseA rest k by simp [eraseA, hp]]
      rw [lookupA, lookupA, ih]

theorem insertA_of_not_mem (l : List (Nat × β)) (k : Nat) (v : β)
    (h : k ∉ keysOf l) : insertA l k v = l ++ [(k, v)] := by
  induction l with
  | nil => simp [insertA]
  | cons p rest ih =>
    simp only [keysOf, List.map_cons, List.mem_cons] at h
    push_neg at h
    have h1 : p.1 ≠ k := fun hc => h.1 hc.symm
    simp [insertA, h1, ih (by simpa [keysOf] using h.2)]

theorem mem_keysOf_insertA (l : List (Nat × β)) (k i : Nat) (v : β)
    (h : i ∈ keysOf (insertA l k v)) : i ∈ keysOf l ∨ i = k := by
  induction l with
  | nil => simpa [insertA, keysOf] using h
  | cons p rest ih =>
    by_cases hp : p.1 = k
    · simp only [insertA, hp, if_true, keysOf, List.map_cons, List.mem_cons] at h
      rcases h with h | h
      · right; exact h
      · left; simp [keysOf, List.mem_cons]; right; simpa [keysOf] using h
    · simp only [insertA, hp, if_false, keysOf, List.map_cons, List.mem_cons] at h
      rcases h with h | h
      · left; simp [keysOf, h]
      · rcases ih (by simpa [keysOf] using h) with h2 | h2
        · left; simp [keysOf, List.mem_cons]; right; simpa [keysOf] using h2
        · right; exact h2

theorem mem_keysOf_eraseA (l : List (Nat × β)) (k i : Nat)
    (h : i ∈ keysOf (eraseA l k)) : i ∈ keysOf l := by
  simp only [keysOf, eraseA, List.mem_map] at h ⊢
  obtain ⟨x, hx, hxi⟩ := h
  exact ⟨x, (List.mem_filter.mp hx).1, hxi⟩

theorem not_mem_keysOf_eraseA_self (l : List (Nat × β)) (k : Nat) :
    k ∉ keysOf (eraseA l k) := by
  intro h
  simp only [keysOf, eraseA, List.mem_map] at h
  obtain ⟨x, hx, hxk⟩ := h
  have h2 := (List.mem_filter.mp hx).2
  rw [hxk] at h2
  simp at h2

theorem lookupA_ne_none_of_mem_keysOf (l : List (Nat × β)) (i : Nat)
    (h : i ∈ keysOf l) : lookupA l i ≠ none := by
  induction l with
  | nil => simp [keysOf] at h
  | cons p rest ih =>
    by_cases hp : p.1 = i
    · simp [lookupA, hp]
    · simp only [keysOf, List.map_cons, List.mem_cons] at h
      rcases h with h | h
      · exact absurd h.symm hp
      · simpa [lookupA, hp] using ih (by simpa [keysOf] using h)

theorem mem_keysOf_of_lookupA (l : List (Nat × β)) (i : Nat) (v : β)
    (h : lookupA l i = some v) : i ∈ keysOf l := by
  induction l with
  | nil => simp [lookupA] at h
  | cons p rest ih =>
    by_cases hp : p.1 = i
    · simp [keysOf, hp]
    · simp only [lookupA, hp, if_false] at h
      simp [keysOf, List.mem_cons]
      right
      simpa [keysOf] using ih h

theorem lookupA_append_of_not_mem (l1 l2 : List (Nat × β)) (k : Nat)
    (h : k ∉ keysOf l1) : lookupA (l1 ++ l2) k = lookupA l2 k := by
  induction l1 with
  | nil => simp
  | cons p rest ih =>
    simp only [keysOf, List.map_cons, List.mem_cons] at h
    push_neg at h
    have h1 : p.1 ≠ k := fun hc => h.1 hc.symm
    simp [lookupA, h1, ih (by simpa [keysOf] using h.2)]

theorem mem_insertA_self (l : List (Nat × β)) (k : Nat) (v : β) :
    (k, v) ∈ insertA l k v := by
  induction l with
  | nil => simp [insertA]
  | cons p rest ih =>
    by_cases hp : p.1 = k
    · simp [insertA, hp]
    · simp [insertA, hp, List.mem_cons]
      right
      exact ih

end AssocLemmas

namespace ecs

theorem mem_getEntitiesWith (w : World) (t : String) (i : Nat) :
    i ∈ w.GetEntitiesWithComponent t ↔
      ∃ p, p ∈ w.entities ∧ p.1 = i ∧ (lookupS p.2.Components t).isSome = true := by
  unfold World.GetEntitiesWithComponent
  constructor
  · intro h
    obtain ⟨p, hp, hpi⟩ := List.mem_map.mp h
    have hf := List.mem_filter.mp hp
    exact ⟨p, hf.1, hpi, by simpa using hf.2⟩
  · rintro ⟨p, hp, hpi, hsome⟩
    exact List.mem_map.mpr ⟨p, List.mem_filter.mpr ⟨hp, by simpa using hsome⟩, hpi⟩

theorem getEntitiesWith_subset_keys (w : World) (t : String) (i : Nat)
    (h : i ∈ w.GetEntitiesWithComponent t) : i ∈ keysOf w.entities := by
  obtain ⟨p, hp, hpi, _⟩ := (mem_getEntitiesWith w t i).mp h
  exact List.mem_map.mpr ⟨p, hp, hpi⟩

theorem addComponent_lookup_isSome (w : World) (i j : Nat) (c : Component)
    (h : (lookupA w.entities i).isSome = true) :
    (lookupA (w.AddComponent j c).entities i).isSome = true := by
  unfold World.AddComponent
  cases hj : lookupA w.entities j with
  | none => simpa using h
  | some e =>
    by_cases hij : j = i
    · subst hij
      simp [lookupA_insertA_self]
    · simp [lookupA_insertA_ne _ _ _ _ hij, h]

theorem getComponent_addComponent_self (w : World) (i : Nat) (c : Component)
    (e : Entity) (he : lookupA w.entities i = some e) :
    (w.AddComponent i c).GetComponent i c.GetType = some c := by
  unfold World.AddComponent World.GetComponent
  rw [he]
  simp only [lookupA_insertA_self]
  exact lookupS_insertS_self _ _ _

/-- C3: for an existing entity, a non-empty run of `AddComponent` calls whose
components all carry type tag `t` leaves `GetComponent(id, t)` returning the
component of the most recent call (per-entity overwrite semantics). -/
theorem C3_addComponent_overwrite (w : World) (entityID : Nat)
    (cs : List Component) (t : String) (hne : cs ≠ [])
    (hex : (lookupA w.entities entityID).isSome = true)
    (ht : ∀ c ∈ cs, c.GetType = t) :
    (applyAdds w entityID cs).GetComponent entityID t = some (cs.getLast hne) := by
  induction cs generalizing w with
  | nil => exact absurd rfl hne
  | cons c rest ih =>
    cases rest with
    | nil =>
      obtain ⟨e, he⟩ := Option.isSome_iff_exists.mp hex
      have hgt := ht c (by simp)
      have := getComponent_addComponent_self w entityID c e he
      rw [hgt] at this
      simpa [applyAdds, List.getLast] using this
    | cons c2 r2 =>
      have hex2 : (lookupA (w.AddComponent entityID c).entities entityID).isSome = true :=
        addComponent_lookup_isSome w entityID entityID c hex
      have ht2 : ∀ x ∈ c2 :: r2, x.GetType = t := fun x hx => ht x (by simp [hx])
      have step : applyAdds w entityID (c :: c2 :: r2) =
          applyAdds (w.AddComponent entityID c) entityID (c2 :: r2) := rfl
      rw [step, ih (w.AddComponent entityID c) (by simp) hex2 ht2]
      simp [List.getLast]

/-- Witness for C3 at a concrete world: one entity, two successive "tag"
components; the later one is returned. -/
theorem C3_addComponent_overwrite_witness :
    (applyAdds (NewWorld.CreateEntity).2 0 [⟨"tag", 1⟩, ⟨"tag", 2⟩]).GetComponent 0 "tag" =
      some (([⟨"tag", 1⟩, ⟨"tag", 2⟩] : List Component).getLast (by simp)) :=
  C3_addComponent_overwrite (NewWorld.CreateEntity).2 0 [⟨"tag", 1⟩, ⟨"tag", 2⟩] "tag"
    (by simp) (by decide) (by decide)

/-- C4: `GetEntitiesWithComponent(t)` returns exactly the IDs of stored
entities whose own component map contains `t`, and its result does not depend
on the global per-type component list at all. -/
theorem C4_getEntitiesWith_exact (w : World) (t : String) :
    (∀ i, i ∈ w.GetEntitiesWithComponent t ↔
        ∃ p, p ∈ w.entities ∧ p.1 = i ∧ (lookupS p.2.Components t).isSome = true) ∧
      (∀ cs, World.GetEntitiesWithComponent { w with components := cs } t =
        w.GetEntitiesWithComponent t) :=
  ⟨fun i => mem_getEntitiesWith w t i, fun _ => rfl⟩

theorem removeFirstSystem_no_match (l : List System) (n : String)
    (h : ∀ s ∈ l, s.GetName ≠ n) : removeFirstSystem l n = l := by
  induction l with
  | nil => rfl
  | cons s rest ih =>
    have hs : s.GetName ≠ n := h s (by simp)
    simp only [removeFirstSystem, if_neg hs]
    rw [ih (fun x hx => h x (by simp [hx]))]

theorem removeFirstSystem_first_match (l1 l2 : List System) (s : System)
    (n : String) (h1 : ∀ x ∈ l1, x.GetName ≠ n) (hs : s.GetName = n) :
    removeFirstSystem (l1 ++ s :: l2) n = l1 ++ l2 := by
  induction l1 with
  | nil => simp [removeFirstSystem, hs]
  | cons x rest ih =>
    have hx : x.GetName ≠ n := h1 x (by simp)
    simp only [List.cons_append, removeFirstSystem, if_neg hx, List.append_eq]
    rw [ih (fun y hy => h1 y (by simp [hy]))]

/-- C8 counterexample: with two registered systems both named "a",
`RemoveSystem("a")` removes only the first; a system whose `GetName()` is
"a" survives, refuting "every system whose GetName() equals name is removed". -/
theorem C8_counterexample :
    ∃ s ∈ ((ecs.World.AddSystem (ecs.World.AddSystem ecs.NewWorld ⟨"a", 1⟩)
        ⟨"a", 2⟩).RemoveSystem "a").systems, s.GetName = "a" := by
  refine ⟨⟨"a", 2⟩, ?_, rfl⟩
  decide

/-- C8 (amended): `RemoveSystem(name)` removes only the first registered
system whose `GetName()` equals `name`, preserving the order of the rest,
and is a no-op when no registered system has that name. -/
theorem C8_removeSystem_first (w : World) (systemName : String) :
    ((∀ s ∈ w.systems, s.GetName ≠ systemName) →
        (w.RemoveSystem systemName).systems = w.systems) ∧
      (∀ l1 s l2, w.systems = l1 ++ s :: l2 → (∀ x ∈ l1, x.GetName ≠ systemName) →
        s.GetName = systemName → (w.RemoveSystem systemName).systems = l1 ++ l2) := by
  constructor
  · intro h
    exact removeFirstSystem_no_match w.systems systemName h
  · intro l1 s l2 hsplit h1 hs
    show removeFirstSystem w.systems systemName = l1 ++ l2
    rw [hsplit]
    exact removeFirstSystem_first_match l1 l2 s systemName h1 hs

end ecs

theorem map_congr_fn {α β : Type} (l : List α) (f g : α → β)
    (h : ∀ a ∈ l, f a = g a) : l.map f = l.map g := by
  induction l with
  | nil => rfl
  | cons a rest ih =>
    simp only [List.map_cons, h a (by simp)]
    rw [ih (fun x hx => h x (by simp [hx]))]

theorem u64_pos : 0 < U64 := by norm_num [U64]

namespace ecs

theorem numCreates_nil : numCreates [] = 0 := rfl

theorem numCreates_cons (op : Op) (rest : List Op) :
    numCreates (op :: rest) = (if isCreate op then 1 else 0) + numCreates rest := by
  unfold numCreates
  rw [List.filter_cons]
  cases h : isCreate op <;> simp [h, Nat.add_comm]

theorem numCreates_replicate (n : Nat) :
    numCreates (List.replicate n Op.createE) = n := by
  induction n with
  | zero => rfl
  | succ m ih => simp [List.replicate_succ, numCreates_cons, isCreate, ih, Nat.add_comm]

theorem foldRemove_eq (w : World) (eid : Nat) (ks : List (String × Component)) :
    ks.foldl (fun acc p => acc.removeComponentFromList eid p.1) w =
      { w with components := ks.foldl (fun c p => removeFromCompList c eid p.1) w.components } := by
  induction ks generalizing w with
  | nil => rfl
  | cons p rest ih =>
    simp only [List.foldl_cons]
    rw [ih]
    rfl

theorem destroyEntity_fields (w : World) (i : Nat) :
    ((w.DestroyEntity i).nextEntityID = w.nextEntityID ∧
      (w.DestroyEntity i).systems = w.systems) ∧
      ((lookupA w.entities i = none → (w.DestroyEntity i).entities = w.entities) ∧
        (∀ e, lookupA w.entities i = some e →
          (w.DestroyEntity i).entities = eraseA w.entities i)) := by
  unfold World.DestroyEntity
  cases h : lookupA w.entities i with
  | none => simp
  | some e =>
    dsimp only
    rw [foldRemove_eq]
    simp

theorem applyOp_nextEntityID (w : World) (op : Op) :
    (applyOp w op).nextEntityID =
      if isCreate op then (w.nextEntityID + 1) % U64 else w.nextEntityID := by
  cases op with
  | createE => rfl
  | destroyE i => simpa [applyOp, isCreate] using ((destroyEntity_fields w i).1).1
  | addComp i c =>
    simp only [applyOp, isCreate, if_neg (by simp : ¬False)]
    unfold World.AddComponent
    cases lookupA w.entities i <;> simp
  | removeComp i t =>
    simp only [applyOp, isCreate]
    unfold World.RemoveComponent
    cases lookupA w.entities i with
    | none => simp
    | some e =>
      cases h2 : lookupS e.Components t <;> simp [h2, World.removeComponentFromList]
  | addSys s => rfl
  | removeSys n => rfl

theorem applyOp_next_lt (w : World) (op : Op) (hw : w.nextEntityID < U64) :
    (applyOp w op).nextEntityID < U64 := by
  rw [applyOp_nextEntityID]
  cases h : isCreate op with
  | true => simpa using Nat.mod_lt _ u64_pos
  | false => simpa using hw

theorem applyOps_nextEntityID (ops : List Op) (w : World)
    (hw : w.nextEntityID < U64) :
    (applyOps w ops).nextEntityID = (w.nextEntityID + numCreates ops) % U64 := by
  induction ops generalizing w with
  | nil => simp [applyOps, numCreates_nil, Nat.mod_eq_of_lt hw]
  | cons op rest ih =>
    have hw2 := applyOp_next_lt w op hw
    rw [applyOps, ih _ hw2, applyOp_nextEntityID, numCreates_cons]
    cases h : isCreate op with
    | true =>
      simp only [if_true]
      rw [Nat.mod_add_mod, Nat.add_assoc]
    | false => simp

end ecs

namespace ecs

theorem createdIds_cons_create (w : World) (rest : List Op) :
    createdIds w (Op.createE :: rest) =
      w.nextEntityID :: createdIds (applyOp w Op.createE) rest := rfl

theorem createdIds_cons_other (w : World) (op : Op) (rest : List Op)
    (h : isCreate op = false) :
    createdIds w (op :: rest) = createdIds (applyOp w op) rest := by
  cases op <;> first | rfl | simp [isCreate] at h

theorem createdIds_formula (ops : List Op) (w : World)
    (hw : w.nextEntityID < U64) :
    createdIds w ops =
      (List.range (numCreates ops)).map (fun k => (w.nextEntityID + k) % U64) := by
  induction ops generalizing w with
  | nil => simp [createdIds, numCreates_nil]
  | cons op rest ih =>
    have hw2 := applyOp_next_lt w op hw
    cases op with
    | createE =>
      rw [createdIds_cons_create, ih _ hw2]
      have hnext : (applyOp w Op.createE).nextEntityID = (w.nextEntityID + 1) % U64 := rfl
      rw [hnext]
      rw [show numCreates (Op.createE :: rest) = numCreates rest + 1 by
        rw [numCreates_cons]; simp [isCreate, Nat.add_comm]]
      rw [List.range_succ_eq_map, List.map_cons, List.map_map]
      congr 1
      · rw [Nat.add_zero, Nat.mod_eq_of_lt hw]
      · refine map_congr_fn _ _ _ (fun k _ => ?_)
        simp only [Function.comp_apply, Nat.succ_eq_add_one]
        rw [Nat.mod_add_mod]
        congr 1
        omega
    | destroyE i =>
      rw [createdIds_cons_other _ _ _ (by rfl), ih _ hw2, applyOp_nextEntityID, numCreates_cons]
      simp [isCreate]
    | addComp i c =>
      rw [createdIds_cons_other _ _ _ (by rfl), ih _ hw2, applyOp_nextEntityID, numCreates_cons]
      simp [isCreate]
    | removeComp i t =>
      rw [createdIds_cons_other _ _ _ (by rfl), ih _ hw2, applyOp_nextEntityID, numCreates_cons]
      simp [isCreate]
    | addSys sy =>
      rw [createdIds_cons_other _ _ _ (by rfl), ih _ hw2, applyOp_nextEntityID, numCreates_cons]
      simp [isCreate]
    | removeSys n =>
      rw [createdIds_cons_other _ _ _ (by rfl), ih _ hw2, applyOp_nextEntityID, numCreates_cons]
      simp [isCreate]

end ecs

namespace ecs

/-- C2 (amended): over any operation sequence making at most `2 ^ 64`
`CreateEntity` calls, the IDs those calls return are strictly increasing and
never repeat, whatever `DestroyEntity` (or other) calls are interleaved.
(The bound is forced by the `uint64` counter: see the counterexample.) -/
theorem C2_ids_increasing (ops : List Op) (h : numCreates ops ≤ U64) :
    (createdIds NewWorld ops).Pairwise (fun a b => a < b) ∧
      (createdIds NewWorld ops).Nodup := by
  have h0 : NewWorld.nextEntityID < U64 := u64_pos
  rw [createdIds_formula ops NewWorld h0]
  have hids : (List.range (numCreates ops)).map
      (fun k => (NewWorld.nextEntityID + k) % U64) = List.range (numCreates ops) := by
    rw [map_congr_fn (List.range (numCreates ops)) _ (fun k => k)
      (fun k hk => by
        have hklt : k < numCreates ops := List.mem_range.mp hk
        show (NewWorld.nextEntityID + k) % U64 = k
        have hz : NewWorld.nextEntityID = 0 := rfl
        rw [hz, Nat.zero_add]
        exact Nat.mod_eq_of_lt (lt_of_lt_of_le hklt h))]
    exact List.map_id _
  rw [hids]
  exact ⟨List.pairwise_lt_range _, List.nodup_range _⟩

/-- Witness for C2 at a concrete sequence: create, destroy, create again. -/
theorem C2_ids_increasing_witness :
    (createdIds NewWorld [Op.createE, Op.destroyE 0, Op.createE]).Pairwise
        (fun a b => a < b) ∧
      (createdIds NewWorld [Op.createE, Op.destroyE 0, Op.createE]).Nodup :=
  C2_ids_increasing [Op.createE, Op.destroyE 0, Op.createE]
    (by norm_num [numCreates, List.filter, isCreate, U64])

/-- C2 counterexample: a sequence of `2 ^ 64 + 1` `CreateEntity` calls wraps
the `uint64` counter, so the first and last returned IDs are both 0 — the
returned IDs are neither strictly increasing nor free of repeats. -/
theorem C2_counterexample :
    ¬ ((createdIds NewWorld (List.replicate (U64 + 1) Op.createE)).Pairwise
        (fun a b => a < b) ∧
      (createdIds NewWorld (List.replicate (U64 + 1) Op.createE)).Nodup) := by
  rintro ⟨hpw, -⟩
  have h0 : NewWorld.nextEntityID < U64 := u64_pos
  rw [createdIds_formula _ NewWorld h0, numCreates_replicate] at hpw
  rw [List.pairwise_map] at hpw
  have hget := List.pairwise_iff_get.mp hpw
    ⟨0, by rw [List.length_range]; exact Nat.succ_pos _⟩
    ⟨U64, by rw [List.length_range]; exact Nat.lt_succ_self _⟩
    (Fin.mk_lt_mk.mpr u64_pos)
  simp only [List.get_range] at hget
  have hz : NewWorld.nextEntityID = 0 := rfl
  rw [hz] at hget
  simp only [Nat.zero_add, Nat.zero_mod, Nat.mod_self] at hget
  exact lt_irrefl 0 hget

end ecs

namespace ecs

theorem addComponent_entities_none (w : World) (j : Nat) (c : Component)
    (hj : lookupA w.entities j = none) : (w.AddComponent j c).entities = w.entities := by
  unfold World.AddComponent
  rw [hj]

theorem addComponent_entities_some (w : World) (j : Nat) (c : Component)
    (e : Entity) (hj : lookupA w.entities j = some e) :
    (w.AddComponent j c).entities =
      insertA w.entities j
        { e with Components := insertS e.Components c.GetType c } := by
  unfold World.AddComponent
  rw [hj]

theorem removeComponent_entities (w : World) (j : Nat) (t : String) (i : Nat)
    (h : i ∈ keysOf (w.RemoveComponent j t).entities) : i ∈ keysOf w.entities := by
  unfold World.RemoveComponent at h
  cases hj : lookupA w.entities j with
  | none => rw [hj] at h; exact h
  | some e =>
    rw [hj] at h
    dsimp only at h
    cases ht : lookupS e.Components t with
    | none => rw [ht] at h; exact h
    | some c =>
      rw [ht] at h
      simp only [World.removeComponentFromList] at h
      rcases mem_keysOf_insertA w.entities j i _ h with h2 | h2
      · exact h2
      · rw [h2]
        exact mem_keysOf_of_lookupA w.entities j e hj

theorem keys_applyOp (w : World) (op : Op) (i : Nat)
    (h : i ∈ keysOf (applyOp w op).entities) :
    i ∈ keysOf w.entities ∨ (op = Op.createE ∧ i = w.nextEntityID) := by
  cases op with
  | createE =>
    rcases mem_keysOf_insertA w.entities w.nextEntityID i _ h with h2 | h2
    · left; exact h2
    · right; exact ⟨rfl, h2⟩
  | destroyE j =>
    cases hj : lookupA w.entities j with
    | none =>
      left
      rwa [show (applyOp w (Op.destroyE j)).entities = w.entities from
        ((destroyEntity_fields w j).2).1 hj] at h
    | some e =>
      left
      rw [show (applyOp w (Op.destroyE j)).entities = eraseA w.entities j from
        ((destroyEntity_fields w j).2).2 e hj] at h
      exact mem_keysOf_eraseA w.entities j i h
  | addComp j c =>
    cases hj : lookupA w.entities j with
    | none =>
      left
      rwa [show (applyOp w (Op.addComp j c)).entities = w.entities from
        addComponent_entities_none w j c hj] at h
    | some e =>
      left
      rw [show (applyOp w (Op.addComp j c)).entities = insertA w.entities j
          { e with Components := insertS e.Components c.GetType c } from
        addComponent_entities_some w j c e hj] at h
      rcases mem_keysOf_insertA w.entities j i _ h with h2 | h2
      · exact h2
      · rw [h2]
        exact mem_keysOf_of_lookupA w.entities j e hj
  | removeComp j t =>
    left
    exact removeComponent_entities w j t i h
  | addSys sy => left; exact h
  | removeSys n => left; exact h

theorem keys_applyOps (ops : List Op) (w : World) (i : Nat)
    (h : i ∈ keysOf (applyOps w ops).entities) :
    i ∈ keysOf w.entities ∨ i ∈ createdIds w ops := by
  induction ops generalizing w with
  | nil => left; exact h
  | cons op rest ih =>
    rcases ih (applyOp w op) (by exact h) with h2 | h2
    · rcases keys_applyOp w op i h2 with h3 | h3
      · left; exact h3
      · right
        rw [h3.1, createdIds_cons_create]
        simp [h3.2]
    · right
      cases hop : isCreate op with
      | true =>
        have hopc : op = Op.createE := by cases op <;> simp [isCreate] at hop ⊢
        rw [hopc, createdIds_cons_create]
        rw [hopc] at h2
        simp [h2]
      | false =>
        rw [createdIds_cons_other _ _ _ hop]
        exact h2

end ecs

namespace ecs

/-- C7 (amended): if entity `eid` exists and is destroyed, then (i) every
`GetComponent(eid, t)` immediately returns absent, and (ii) over any
subsequent operations, as long as the world's total `CreateEntity` count
stays within `2 ^ 64` (before the `uint64` ID counter wraps and reissues
`eid`), `GetEntitiesWithComponent` never again includes `eid`. -/
theorem C7_destroy_forgets (ops1 ops2 : List Op) (eid : Nat)
    (hmem : eid ∈ keysOf (applyOps NewWorld ops1).entities)
    (hcnt : numCreates ops1 + numCreates ops2 ≤ U64) :
    (∀ t, ((applyOps NewWorld ops1).DestroyEntity eid).GetComponent eid t = none) ∧
      (∀ t, eid ∉ (applyOps ((applyOps NewWorld ops1).DestroyEntity eid)
        ops2).GetEntitiesWithComponent t) := by
  have h0 : NewWorld.nextEntityID < U64 := u64_pos
  have hz : NewWorld.nextEntityID = 0 := rfl
  have heidlt : eid < numCreates ops1 := by
    rcases keys_applyOps ops1 NewWorld eid hmem with h | h
    · simp [NewWorld, keysOf] at h
    · rw [createdIds_formula ops1 NewWorld h0] at h
      obtain ⟨k, hk, hke⟩ := List.mem_map.mp h
      have hklt := List.mem_range.mp hk
      rw [hz, Nat.zero_add, Nat.mod_eq_of_lt (by omega)] at hke
      omega
  obtain ⟨e, he⟩ : ∃ e, lookupA (applyOps NewWorld ops1).entities eid = some e := by
    cases hl : lookupA (applyOps NewWorld ops1).entities eid with
    | none => exact absurd hl (lookupA_ne_none_of_mem_keysOf _ eid hmem)
    | some e => exact ⟨e, rfl⟩
  have hwd_entities : ((applyOps NewWorld ops1).DestroyEntity eid).entities =
      eraseA (applyOps NewWorld ops1).entities eid :=
    ((destroyEntity_fields (applyOps NewWorld ops1) eid).2).2 e he
  have hwd_next : ((applyOps NewWorld ops1).DestroyEntity eid).nextEntityID =
      (applyOps NewWorld ops1).nextEntityID :=
    ((destroyEntity_fields (applyOps NewWorld ops1) eid).1).1
  have hnext1 : (applyOps NewWorld ops1).nextEntityID = numCreates ops1 % U64 := by
    rw [applyOps_nextEntityID ops1 NewWorld h0, hz, Nat.zero_add]
  constructor
  · intro t
    unfold World.GetComponent
    rw [hwd_entities, lookupA_eraseA_self]
  · intro t hmem2
    have hkeys := getEntitiesWith_subset_keys _ t eid hmem2
    rcases keys_applyOps ops2 _ eid hkeys with h | h
    · rw [hwd_entities] at h
      exact not_mem_keysOf_eraseA_self (applyOps NewWorld ops1).entities eid h
    · have hwdlt : ((applyOps NewWorld ops1).DestroyEntity eid).nextEntityID < U64 := by
        rw [hwd_next, hnext1]
        exact Nat.mod_lt _ u64_pos
      rw [createdIds_formula ops2 _ hwdlt] at h
      obtain ⟨k, hk, hke⟩ := List.mem_map.mp h
      have hklt := List.mem_range.mp hk
      rw [hwd_next, hnext1, Nat.mod_add_mod] at hke
      rw [Nat.mod_eq_of_lt (by omega)] at hke
      omega

/-- Witness for C7 at a concrete history: create entity 0, destroy it, and
create once more; entity 0 stays absent. -/
theorem C7_destroy_forgets_witness :
    (∀ t, ((applyOps NewWorld [Op.createE]).DestroyEntity 0).GetComponent 0 t = none) ∧
      (∀ t, 0 ∉ (applyOps ((applyOps NewWorld [Op.createE]).DestroyEntity 0)
        [Op.createE]).GetEntitiesWithComponent t) :=
  C7_destroy_forgets [Op.createE] [Op.createE] 0 (by decide)
    (by norm_num [numCreates, List.filter, isCreate, U64])

end ecs

namespace ecs

theorem applyOps_append (w : World) (l1 l2 : List Op) :
    applyOps w (l1 ++ l2) = applyOps (applyOps w l1) l2 := by
  induction l1 generalizing w with
  | nil => rfl
  | cons op rest ih => simp only [List.cons_append, applyOps]; exact ih (applyOp w op)

theorem createRun (c : List (String × List Component)) (sys : List System) :
    ∀ (n m : Nat) (l : List (Nat × Entity)), m < U64 → m + n ≤ U64 →
      (∀ k ∈ keysOf l, k < m) →
      applyOps ⟨l, c, sys, m⟩ (List.replicate n Op.createE) =
        ⟨l ++ (List.range' m n).map (fun k => (k, blankEntity k)), c, sys,
          (m + n) % U64⟩ := by
  intro n
  induction n with
  | zero =>
    intro m l hm _ _
    simp [applyOps, Nat.mod_eq_of_lt hm]
  | succ n ih =>
    intro m l hm hmn hk
    rw [List.replicate_succ]
    rw [show applyOps (⟨l, c, sys, m⟩ : World)
        (Op.createE :: List.replicate n Op.createE) =
        applyOps (applyOp ⟨l, c, sys, m⟩ Op.createE)
          (List.replicate n Op.createE) from rfl]
    have hmm : m ∉ keysOf l := fun hmem => absurd (hk m hmem) (lt_irrefl m)
    have hstep : applyOp (⟨l, c, sys, m⟩ : World) Op.createE =
        ⟨l ++ [(m, blankEntity m)], c, sys, (m + 1) % U64⟩ := by
      show (⟨insertA l m (blankEntity m), c, sys, (m + 1) % U64⟩ : World) = _
      rw [insertA_of_not_mem l m _ hmm]
    rw [hstep]
    have hknew : ∀ k ∈ keysOf (l ++ [(m, blankEntity m)]), k < m + 1 := by
      intro k hkm
      simp only [keysOf, List.map_append, List.mem_append, List.map_cons,
        List.map_nil, List.mem_singleton] at hkm
      rcases hkm with hkm | hkm
      · exact Nat.lt_succ_of_lt (hk k hkm)
      · omega
    by_cases hm1 : m + 1 < U64
    · rw [show (m + 1) % U64 = m + 1 from Nat.mod_eq_of_lt hm1]
      rw [ih (m + 1) (l ++ [(m, blankEntity m)]) hm1 (by omega) hknew]
      rw [List.range'_succ]
      simp only [List.map_cons, List.append_assoc, List.singleton_append]
      rw [show m + 1 + n = m + (n + 1) from by omega]
    · have hn0 : n = 0 := by omega
      subst hn0
      simp [applyOps, List.range'_succ]

theorem C7_counterexample_setup :
    (applyOps NewWorld [Op.createE]).DestroyEntity 0 =
      ⟨[], [], [], 1⟩ := by
  have hw1 : applyOps NewWorld [Op.createE] =
      ⟨[(0, ⟨0, [], true⟩)], [], [], 1⟩ := by
    show (⟨insertA [] 0 ⟨0, [], true⟩, [], [], (0 + 1) % U64⟩ : World) = _
    norm_num [insertA, U64]
  rw [hw1]
  unfold World.DestroyEntity
  simp [lookupA, eraseA]

end ecs

namespace ecs

/-- C7 counterexample: entity 0 is created and destroyed; after `2 ^ 64`
further `CreateEntity` calls the `uint64` counter wraps and reissues ID 0,
and an `AddComponent` on the recreated entity makes
`GetEntitiesWithComponent("tag")` include 0 again — refuting "never again
includes id" over unbounded operation sequences. -/
theorem C7_counterexample :
    0 ∈ (applyOps ((applyOps NewWorld [Op.createE]).DestroyEntity 0)
      wrapOps).GetEntitiesWithComponent "tag" := by
  rw [C7_counterexample_setup]
  rw [show wrapOps =
    List.replicate (U64 - 1) Op.createE ++ [Op.createE, Op.addComp 0 tagC] from rfl]
  rw [applyOps_append]
  have hu : 0 < U64 := u64_pos
  have hrun := createRun [] [] (U64 - 1) 1 [] (by norm_num [U64]) (by omega)
    (by simp [keysOf])
  rw [hrun]
  simp only [List.nil_append]
  rw [show (1 + (U64 - 1)) % U64 = 0 by
    rw [show 1 + (U64 - 1) = U64 from by omega, Nat.mod_self]]
  rw [show (List.range' 1 (U64 - 1)).map (fun k => (k, blankEntity k)) = bigTable
    from rfl]
  have h0notin : 0 ∉ keysOf bigTable := by
    intro hmem
    simp only [bigTable, keysOf, List.map_map] at hmem
    have h01 : 0 ∈ List.range' 1 (U64 - 1) := by
      simpa [Function.comp] using hmem
    exact absurd (List.mem_range'_1.mp h01).1 (by omega)
  rw [show applyOps (⟨bigTable, [], [], 0⟩ : World) [Op.createE, Op.addComp 0 tagC] =
    applyOp (applyOp ⟨bigTable, [], [], 0⟩ Op.createE) (Op.addComp 0 tagC) from rfl]
  have hc1 : applyOp (⟨bigTable, [], [], 0⟩ : World) Op.createE =
      ⟨bigTable ++ [(0, blankEntity 0)], [], [], 1⟩ := by
    show (⟨insertA bigTable 0 (blankEntity 0), [], [], (0 + 1) % U64⟩ : World) = _
    rw [insertA_of_not_mem bigTable 0 _ h0notin]
    norm_num [U64]
  rw [hc1]
  have hlook : lookupA (bigTable ++ [(0, blankEntity 0)]) 0 = some (blankEntity 0) := by
    rw [lookupA_append_of_not_mem _ _ 0 h0notin]
    simp [lookupA]
  apply (mem_getEntitiesWith _ "tag" 0).mpr
  refine ⟨(0, ⟨0, insertS [] tagC.GetType tagC, true⟩), ?_, rfl, ?_⟩
  · simp only [applyOp]
    rw [addComponent_entities_some (⟨bigTable ++ [(0, blankEntity 0)], [], [], 1⟩ : World)
      0 tagC (blankEntity 0) hlook]
    exact mem_insertA_self _ 0 _
  · simp [insertS, tagC, Component.GetType, lookupS]

end ecs

namespace ecs

theorem lookupA_entAgree {l1 l2 : List (Nat × Entity)}
    (h : List.Forall₂ EntAgree l1 l2) (i : Nat) :
    OptEntAgree (lookupA l1 i) (lookupA l2 i) := by
  induction h with
  | nil => trivial
  | cons hpq hrest ih =>
    rename_i p q t1 t2
    show OptEntAgree (lookupA (p :: t1) i) (lookupA (q :: t2) i)
    unfold lookupA
    rw [hpq.1]
    by_cases hq : q.1 = i
    · rw [if_pos hq, if_pos hq]
      exact ⟨hpq.2.1, hpq.2.2⟩
    · rw [if_neg hq, if_neg hq]
      exact ih

theorem insertA_forall2 {l1 l2 : List (Nat × Entity)} (i : Nat) (e1 e2 : Entity)
    (hl : List.Forall₂ EntAgree l1 l2) (he : EntAgree (i, e1) (i, e2)) :
    List.Forall₂ EntAgree (insertA l1 i e1) (insertA l2 i e2) := by
  induction hl with
  | nil => exact List.Forall₂.cons he List.Forall₂.nil
  | cons hpq hrest ih =>
    rename_i p q t1 t2
    show List.Forall₂ EntAgree (insertA (p :: t1) i e1) (insertA (q :: t2) i e2)
    unfold insertA
    by_cases hq : q.1 = i
    · rw [if_pos (hpq.1.trans hq), if_pos hq]
      exact List.Forall₂.cons he hrest
    · rw [if_neg (fun hcon => hq (hpq.1.symm.trans hcon)), if_neg hq]
      exact List.Forall₂.cons hpq ih

theorem eraseA_forall2 {l1 l2 : List (Nat × Entity)} (i : Nat)
    (hl : List.Forall₂ EntAgree l1 l2) :
    List.Forall₂ EntAgree (eraseA l1 i) (eraseA l2 i) := by
  induction hl with
  | nil => exact List.Forall₂.nil
  | cons hpq hrest ih =>
    rename_i p q t1 t2
    show List.Forall₂ EntAgree (eraseA (p :: t1) i) (eraseA (q :: t2) i)
    unfold eraseA
    rw [List.filter_cons, List.filter_cons]
    by_cases hq : q.1 = i
    · rw [show (decide (p.1 ≠ i)) = false by simp [hpq.1, hq],
        show (decide (q.1 ≠ i)) = false by simp [hq]]
      exact ih
    · rw [show (decide (p.1 ≠ i)) = true by simp [hpq.1, hq],
        show (decide (q.1 ≠ i)) = true by simp [hq]]
      exact List.Forall₂.cons hpq ih

theorem entitiesWith_congr {l1 l2 : List (Nat × Entity)} (t : String)
    (hl : List.Forall₂ EntAgree l1 l2) :
    (l1.filter (fun p => (lookupS p.2.Components t).isSome)).map Prod.fst =
      (l2.filter (fun p => (lookupS p.2.Components t).isSome)).map Prod.fst := by
  induction hl with
  | nil => rfl
  | cons hpq hrest ih =>
    rename_i p q t1 t2
    rw [List.filter_cons, List.filter_cons,
      show (lookupS p.2.Components t).isSome = (lookupS q.2.Components t).isSome by
        rw [hpq.2.2]]
    by_cases hb : (lookupS q.2.Components t).isSome = true
    · rw [if_pos hb, if_pos hb, List.map_cons, List.map_cons, hpq.1, ih]
    · rw [if_neg hb, if_neg hb]
      exact ih

theorem addComponent_eq (w : World) (i : Nat) (c : Component) (e : Entity)
    (he : lookupA w.entities i = some e) :
    w.AddComponent i c =
      ⟨insertA w.entities i { e with Components := insertS e.Components c.GetType c },
        insertS w.components c.GetType ((lookupS w.components c.GetType).getD [] ++ [c]),
        w.systems, w.nextEntityID⟩ := by
  unfold World.AddComponent
  rw [he]

theorem addComponent_eq_none (w : World) (i : Nat) (c : Component)
    (he : lookupA w.entities i = none) : w.AddComponent i c = w := by
  unfold World.AddComponent
  rw [he]

theorem destroyEntity_eq (w : World) (i : Nat) (e : Entity)
    (he : lookupA w.entities i = some e) :
    w.DestroyEntity i =
      ⟨eraseA w.entities i,
        e.Components.foldl (fun cc p => removeFromCompList cc i p.1) w.components,
        w.systems, w.nextEntityID⟩ := by
  unfold World.DestroyEntity
  rw [he]
  dsimp only
  rw [foldRemove_eq]

theorem destroyEntity_eq_none (w : World) (i : Nat)
    (he : lookupA w.entities i = none) : w.DestroyEntity i = w := by
  unfold World.DestroyEntity
  rw [he]

theorem removeComponent_eq (w : World) (i : Nat) (t : String) (e : Entity)
    (c : Component) (he : lookupA w.entities i = some e)
    (hc : lookupS e.Components t = some c) :
    w.RemoveComponent i t =
      ⟨insertA w.entities i { e with Components := eraseS e.Components t },
        removeFromCompList w.components i t, w.systems, w.nextEntityID⟩ := by
  unfold World.RemoveComponent
  rw [he]
  dsimp only
  rw [hc]
  rfl

theorem removeComponent_eq_none (w : World) (i : Nat) (t : String) (e : Entity)
    (he : lookupA w.entities i = some e) (hc : lookupS e.Components t = none) :
    w.RemoveComponent i t = w := by
  unfold World.RemoveComponent
  rw [he]
  dsimp only
  rw [hc]

theorem removeComponent_eq_noent (w : World) (i : Nat) (t : String)
    (he : lookupA w.entities i = none) : w.RemoveComponent i t = w := by
  unfold World.RemoveComponent
  rw [he]

end ecs

namespace ecs

/-- C10: no ECS world operation after creation reads the `Active` flag: on
two worlds identical except for entities' `Active` flags, `GetComponent`,
`GetEntitiesWithComponent` and `GetEntityCount` return identical results, and
`AddComponent`, `RemoveComponent` and `DestroyEntity` produce worlds that
again agree except for the flags; in particular an inactive entity is still
reported by `GetEntitiesWithComponent`. -/
theorem C10_active_flag_oblivious (w1 w2 : World) (h : WorldAgree w1 w2) :
    (∀ i t, w1.GetComponent i t = w2.GetComponent i t) ∧
      (∀ t, w1.GetEntitiesWithComponent t = w2.GetEntitiesWithComponent t) ∧
      (w1.GetEntityCount = w2.GetEntityCount) ∧
      (∀ i c, WorldAgree (w1.AddComponent i c) (w2.AddComponent i c)) ∧
      (∀ i t, WorldAgree (w1.RemoveComponent i t) (w2.RemoveComponent i t)) ∧
      (∀ i, WorldAgree (w1.DestroyEntity i) (w2.DestroyEntity i)) ∧
      (∀ p ∈ w1.entities, p.2.Active = false → ∀ t,
        (lookupS p.2.Components t).isSome = true →
          p.1 ∈ w1.GetEntitiesWithComponent t) := by
  obtain ⟨hent, hcomp, hsys, hnext⟩ := h
  refine ⟨?_, ?_, ?_, ?_, ?_, ?_, ?_⟩
  · intro i t
    unfold World.GetComponent
    have ha := lookupA_entAgree hent i
    cases h1 : lookupA w1.entities i with
    | none =>
      cases h2 : lookupA w2.entities i with
      | none => rfl
      | some b => rw [h1, h2] at ha; exact absurd ha (by simp [OptEntAgree])
    | some a =>
      cases h2 : lookupA w2.entities i with
      | none => rw [h1, h2] at ha; exact absurd ha (by simp [OptEntAgree])
      | some b =>
        rw [h1, h2] at ha
        have hab : a.id = b.id ∧ a.Components = b.Components := ha
        dsimp only
        rw [hab.2]
  · intro t
    unfold World.GetEntitiesWithComponent
    exact entitiesWith_congr t hent
  · unfold World.GetEntityCount
    exact hent.length_eq
  · intro i c
    have ha := lookupA_entAgree hent i
    cases h1 : lookupA w1.entities i with
    | none =>
      cases h2 : lookupA w2.entities i with
      | none =>
        rw [addComponent_eq_none w1 i c h1, addComponent_eq_none w2 i c h2]
        exact ⟨hent, hcomp, hsys, hnext⟩
      | some b => rw [h1, h2] at ha; exact absurd ha (by simp [OptEntAgree])
    | some a =>
      cases h2 : lookupA w2.entities i with
      | none => rw [h1, h2] at ha; exact absurd ha (by simp [OptEntAgree])
      | some b =>
        rw [h1, h2] at ha
        have hab : a.id = b.id ∧ a.Components = b.Components := ha
        rw [addComponent_eq w1 i c a h1, addComponent_eq w2 i c b h2]
        refine ⟨?_, ?_, hsys, hnext⟩
        · exact insertA_forall2 i _ _ hent ⟨rfl, hab.1, by rw [hab.2]⟩
        · rw [hcomp]
  · intro i t
    have ha := lookupA_entAgree hent i
    cases h1 : lookupA w1.entities i with
    | none =>
      cases h2 : lookupA w2.entities i with
      | none =>
        rw [removeComponent_eq_noent w1 i t h1, removeComponent_eq_noent w2 i t h2]
        exact ⟨hent, hcomp, hsys, hnext⟩
      | some b => rw [h1, h2] at ha; exact absurd ha (by simp [OptEntAgree])
    | some a =>
      cases h2 : lookupA w2.entities i with
      | none => rw [h1, h2] at ha; exact absurd ha (by simp [OptEntAgree])
      | some b =>
        rw [h1, h2] at ha
        have hab : a.id = b.id ∧ a.Components = b.Components := ha
        cases hcs : lookupS a.Components t with
        | none =>
          have hcs2 : lookupS b.Components t = none := by rw [← hab.2]; exact hcs
          rw [removeComponent_eq_none w1 i t a h1 hcs,
            removeComponent_eq_none w2 i t b h2 hcs2]
          exact ⟨hent, hcomp, hsys, hnext⟩
        | some cc =>
          have hcs2 : lookupS b.Components t = some cc := by rw [← hab.2]; exact hcs
          rw [removeComponent_eq w1 i t a cc h1 hcs,
            removeComponent_eq w2 i t b cc h2 hcs2]
          refine ⟨?_, ?_, hsys, hnext⟩
          · exact insertA_forall2 i _ _ hent ⟨rfl, hab.1, by rw [hab.2]⟩
          · rw [hcomp]
  · intro i
    have ha := lookupA_entAgree hent i
    cases h1 : lookupA w1.entities i with
    | none =>
      cases h2 : lookupA w2.entities i with
      | none =>
        rw [destroyEntity_eq_none w1 i h1, destroyEntity_eq_none w2 i h2]
        exact ⟨hent, hcomp, hsys, hnext⟩
      | some b => rw [h1, h2] at ha; exact absurd ha (by simp [OptEntAgree])
    | some a =>
      cases h2 : lookupA w2.entities i with
      | none => rw [h1, h2] at ha; exact absurd ha (by simp [OptEntAgree])
      | some b =>
        rw [h1, h2] at ha
        have hab : a.id = b.id ∧ a.Components = b.Components := ha
        rw [destroyEntity_eq w1 i a h1, destroyEntity_eq w2 i b h2]
        refine ⟨eraseA_forall2 i hent, ?_, hsys, hnext⟩
        rw [hab.2, hcomp]
  · intro p hp _ t hsome
    exact (mem_getEntitiesWith w1 t p.1).mpr ⟨p, hp, rfl, hsome⟩

/-- Witness for C10 at two concrete worlds differing only in one entity's
`Active` flag. -/
theorem C10_active_flag_oblivious_witness :
    (∀ i t, wActive.GetComponent i t = wInactive.GetComponent i t) ∧
      (∀ t, wActive.GetEntitiesWithComponent t = wInactive.GetEntitiesWithComponent t) ∧
      (wActive.GetEntityCount = wInactive.GetEntityCount) ∧
      (∀ i c, WorldAgree (wActive.AddComponent i c) (wInactive.AddComponent i c)) ∧
      (∀ i t, WorldAgree (wActive.RemoveComponent i t) (wInactive.RemoveComponent i t)) ∧
      (∀ i, WorldAgree (wActive.DestroyEntity i) (wInactive.DestroyEntity i)) ∧
      (∀ p ∈ wActive.entities, p.2.Active = false → ∀ t,
        (lookupS p.2.Components t).isSome = true →
          p.1 ∈ wActive.GetEntitiesWithComponent t) :=
  C10_active_flag_oblivious wActive wInactive
    ⟨List.Forall₂.cons ⟨rfl, rfl, rfl⟩ List.Forall₂.nil, rfl, rfl, rfl⟩

end ecs

namespace physics

theorem resolveAgainst_snd_length (b : RigidBody) (l : List RigidBody) :
    ((resolveAgainst b l).2).length = l.length := by
  induction l generalizing b with
  | nil => rfl
  | cons c cs ih => simp [resolveAgainst, ih]

theorem collisionPass_nil : collisionPass [] = [] := by rw [collisionPass]

theorem collisionPass_cons (b : RigidBody) (rest : List RigidBody) :
    collisionPass (b :: rest) =
      (resolveAgainst b rest).1 :: collisionPass (resolveAgainst b rest).2 := by
  rw [collisionPass]

theorem collisionPass_singleton (b : RigidBody) : collisionPass [b] = [b] := by
  rw [collisionPass_cons]
  show (b, ([] : List RigidBody)).1 :: collisionPass (b, ([] : List RigidBody)).2 = [b]
  rw [collisionPass_nil]

theorem checkCollisionsList_singleton (b : RigidBody) (hb : b.Active = true) :
    checkCollisionsList [b] = [b] := by
  unfold checkCollisionsList
  rw [show List.filter (fun b => b.Active) [b] = [b] by simp [hb]]
  rw [collisionPass_singleton]
  simp [mergeActives, hb]

/-- C9: one `Update(1/60)` on a fresh world (gravity `(0,-9.81)`) holding one
unit-mass body at rest at the origin yields velocity `(0, -9.81/60)` and
position equal to that velocity multiplied by `dt` (float64 modelled as the
idealised reals, where the equality is exact). -/
theorem C9_integration_determinism :
    ((physics.NewWorld.AddBody (NewRigidBody 1 ⟨0, 0⟩ 1 1 1)).Update
        (1 / 60)).bodies.map (fun b => b.Velocity) = [⟨0, -9.81 / 60⟩] ∧
      ((physics.NewWorld.AddBody (NewRigidBody 1 ⟨0, 0⟩ 1 1 1)).Update
        (1 / 60)).bodies.map (fun b => b.Position) =
        [Vector2.Mul ⟨0, -9.81 / 60⟩ (1 / 60)] := by
  constructor <;>
    (simp only [physics.NewWorld, PWorld.AddBody, insertBody, PWorld.Update,
      NewRigidBody, List.map_cons, List.map_nil, integrateBody]
     rw [checkCollisionsList_singleton _ rfl]
     norm_num [Vector2.Add, Vector2.Mul])

end physics

namespace physics

theorem bodyCorr_refl (a : RigidBody) : BodyCorr a a :=
  ⟨rfl, rfl, rfl, rfl, rfl, rfl, rfl, rfl, fun _ => rfl⟩

theorem bodyCorr_trans {a b c : RigidBody} (h1 : BodyCorr a b) (h2 : BodyCorr b c) :
    BodyCorr a c := by
  obtain ⟨i1, v1, f1, m1, n1, w1, hh1, a1, p1⟩ := h1
  obtain ⟨i2, v2, f2, m2, n2, w2, hh2, a2, p2⟩ := h2
  refine ⟨i2.trans i1, v2.trans v1, f2.trans f1, m2.trans m1, n2.trans n1,
    w2.trans w1, hh2.trans hh1, a2.trans a1, fun hle => ?_⟩
  rw [p2 (by rw [n1]; exact hle), p1 hle]

theorem resolveCollision_corr (b1 b2 : RigidBody) :
    BodyCorr b1 (resolveCollision b1 b2).1 ∧ BodyCorr b2 (resolveCollision b1 b2).2 := by
  unfold resolveCollision
  by_cases hov : resolveOverlap b1 b2 > 0
  · simp only [if_pos hov]
    constructor
    · by_cases h1 : b1.InverseMass > 0
      · simp only [if_pos h1]
        exact ⟨rfl, rfl, rfl, rfl, rfl, rfl, rfl, rfl,
          fun hle => absurd h1 (not_lt.mpr hle)⟩
      · simp only [if_neg h1]
        exact bodyCorr_refl b1
    · by_cases h2 : b2.InverseMass > 0
      · simp only [if_pos h2]
        exact ⟨rfl, rfl, rfl, rfl, rfl, rfl, rfl, rfl,
          fun hle => absurd h2 (not_lt.mpr hle)⟩
      · simp only [if_neg h2]
        exact bodyCorr_refl b2
  · simp only [if_neg hov]
    exact ⟨bodyCorr_refl b1, bodyCorr_refl b2⟩

theorem collidePair_corr (b1 b2 : RigidBody) :
    BodyCorr b1 (collidePair b1 b2).1 ∧ BodyCorr b2 (collidePair b1 b2).2 := by
  unfold collidePair
  by_cases hc : checkCollision b1 b2 = true
  · simp only [if_pos hc]
    exact resolveCollision_corr b1 b2
  · simp only [if_neg hc]
    exact ⟨bodyCorr_refl b1, bodyCorr_refl b2⟩

theorem resolveAgainst_corr (rest : List RigidBody) (b : RigidBody) :
    BodyCorr b (resolveAgainst b rest).1 ∧
      List.Forall₂ BodyCorr rest (resolveAgainst b rest).2 := by
  induction rest generalizing b with
  | nil => exact ⟨bodyCorr_refl b, List.Forall₂.nil⟩
  | cons c cs ih =>
    have hp := collidePair_corr b c
    have hq := ih (collidePair b c).1
    refine ⟨?_, ?_⟩
    · show BodyCorr b (resolveAgainst b (c :: cs)).1
      rw [show (resolveAgainst b (c :: cs)).1 =
        (resolveAgainst (collidePair b c).1 cs).1 from rfl]
      exact bodyCorr_trans hp.1 hq.1
    · show List.Forall₂ BodyCorr (c :: cs) (resolveAgainst b (c :: cs)).2
      rw [show (resolveAgainst b (c :: cs)).2 =
        (collidePair b c).2 :: (resolveAgainst (collidePair b c).1 cs).2 from rfl]
      exact List.Forall₂.cons hp.2 hq.2

theorem forall2_bodyCorr_trans {l1 l2 l3 : List RigidBody}
    (h1 : List.Forall₂ BodyCorr l1 l2) (h2 : List.Forall₂ BodyCorr l2 l3) :
    List.Forall₂ BodyCorr l1 l3 := by
  induction h1 generalizing l3 with
  | nil => cases h2; exact List.Forall₂.nil
  | cons hab hrest ih =>
    cases h2 with
    | cons hbc hrest2 => exact List.Forall₂.cons (bodyCorr_trans hab hbc) (ih hrest2)

theorem collisionPass_corr_aux (n : Nat) :
    ∀ l : List RigidBody, l.length ≤ n → List.Forall₂ BodyCorr l (collisionPass l) := by
  induction n with
  | zero =>
    intro l hl
    have hnil : l = [] := List.eq_nil_of_length_eq_zero (Nat.le_zero.mp hl)
    subst hnil
    rw [collisionPass_nil]
    exact List.Forall₂.nil
  | succ m ih =>
    intro l hl
    cases l with
    | nil => rw [collisionPass_nil]; exact List.Forall₂.nil
    | cons b rest =>
      rw [collisionPass_cons]
      have h1 := resolveAgainst_corr rest b
      refine List.Forall₂.cons h1.1 ?_
      have hlen : ((resolveAgainst b rest).2).length ≤ m := by
        rw [resolveAgainst_snd_length]
        simp only [List.length_cons] at hl
        omega
      exact forall2_bodyCorr_trans h1.2 (ih _ hlen)

end physics

namespace physics

theorem collisionPass_corr (l : List RigidBody) :
    List.Forall₂ BodyCorr l (collisionPass l) :=
  collisionPass_corr_aux l.length l le_rfl

theorem mergeActives_corr :
    ∀ (l u : List RigidBody),
      List.Forall₂ BodyCorr (l.filter (fun b => b.Active)) u →
        List.Forall₂ BodyCorr l (mergeActives l u) := by
  intro l
  induction l with
  | nil => intro u _; exact List.Forall₂.nil
  | cons b rest ih =>
    intro u h
    by_cases hb : b.Active = true
    · rw [List.filter_cons, if_pos (by simpa using hb)] at h
      cases h with
      | cons hv hus =>
        rename_i v us
        rw [show mergeActives (b :: rest) (v :: us) = v :: mergeActives rest us by
          simp [mergeActives, hb]]
        exact List.Forall₂.cons hv (ih us hus)
    · rw [List.filter_cons, if_neg (by simpa using hb)] at h
      rw [show mergeActives (b :: rest) u = b :: mergeActives rest u by
        simp [mergeActives, hb]]
      exact List.Forall₂.cons (bodyCorr_refl b) (ih u h)

theorem checkCollisionsList_corr (l : List RigidBody) :
    List.Forall₂ BodyCorr l (checkCollisionsList l) :=
  mergeActives_corr l _ (collisionPass_corr (l.filter (fun b => b.Active)))

theorem forall2_bodyCorr_get {l1 l2 : List RigidBody}
    (h : List.Forall₂ BodyCorr l1 l2) :
    ∀ (i : Nat) (h1 : i < l1.length) (h2 : i < l2.length),
      BodyCorr (l1.get ⟨i, h1⟩) (l2.get ⟨i, h2⟩) := by
  induction h with
  | nil => intro i h1 _; exact absurd h1 (by simp)
  | cons hab hrest ih =>
    intro i h1 h2
    cases i with
    | zero => exact hab
    | succ j => exact ih j (by simpa using h1) (by simpa using h2)

theorem integrateBody_immovable (g : Vector2) (dt : ℝ) (b : RigidBody)
    (hinv : b.InverseMass = 0) :
    (integrateBody g dt b).Velocity = b.Velocity ∧
      (integrateBody g dt b).InverseMass = b.InverseMass ∧
      (b.Velocity = ⟨0, 0⟩ → (integrateBody g dt b).Position = b.Position) := by
  unfold integrateBody
  by_cases hb : b.Active = true
  · simp only [hb, if_true]
    refine ⟨?_, ?_, ?_⟩
    · show Vector2.Add b.Velocity _ = b.Velocity
      simp [Vector2.Add, Vector2.Mul, hinv]
    · simp
    · intro hv
      show Vector2.Add b.Position (Vector2.Mul _ dt) = b.Position
      simp [Vector2.Add, Vector2.Mul, hinv, hv]
  · simp [hb]

/-- C1 (amended): a body with mass 0 (hence inverse mass 0) stored in the
physics world never has its velocity changed by one `Update(dt)` — whatever
velocity it carries — for every `dt`, every gravity vector and regardless of
collision overlap (resolution never displaces a body whose inverse mass is
not positive); and provided its velocity is zero, as `NewRigidBody`
initialises and `Update` preserves, its position is also exactly unchanged.
A zero-mass body given a non-zero velocity still drifts by `velocity * dt`
(see the counterexample). -/
theorem C1_zero_mass_frozen (w : PWorld) (dt : ℝ) (i : Nat)
    (h : i < w.bodies.length) (hm : (w.bodies.get ⟨i, h⟩).Mass = 0)
    (hinv : (w.bodies.get ⟨i, h⟩).InverseMass = 0) :
    ∃ h2 : i < ((w.Update dt).bodies).length,
      ((w.Update dt).bodies.get ⟨i, h2⟩).Velocity = (w.bodies.get ⟨i, h⟩).Velocity ∧
        ((w.bodies.get ⟨i, h⟩).Velocity = ⟨0, 0⟩ →
          ((w.Update dt).bodies.get ⟨i, h2⟩).Position =
            (w.bodies.get ⟨i, h⟩).Position) := by
  have hup : (w.Update dt).bodies =
      checkCollisionsList (w.bodies.map (integrateBody w.gravity dt)) := rfl
  have hcorr := checkCollisionsList_corr (w.bodies.map (integrateBody w.gravity dt))
  have hlen1 : (w.bodies.map (integrateBody w.gravity dt)).length = w.bodies.length :=
    List.length_map _ _
  have hlen2 := hcorr.length_eq
  have h2 : i < ((w.Update dt).bodies).length := by
    rw [hup, ← hlen2, hlen1]
    exact h
  refine ⟨h2, ?_⟩
  have hi1 : i < (w.bodies.map (integrateBody w.gravity dt)).length := by
    rw [hlen1]; exact h
  have hgetmap : (w.bodies.map (integrateBody w.gravity dt)).get ⟨i, hi1⟩ =
      integrateBody w.gravity dt (w.bodies.get ⟨i, h⟩) := by
    simp
  have hint := integrateBody_immovable w.gravity dt (w.bodies.get ⟨i, h⟩) hinv
  have hbc := forall2_bodyCorr_get hcorr i hi1 (by rw [hup] at h2; exact h2)
  rw [hgetmap] at hbc
  obtain ⟨-, hbcv, -, -, hbcinv, -, -, -, hbcpos⟩ := hbc
  have hfin : ((w.Update dt).bodies.get ⟨i, h2⟩) =
      (checkCollisionsList (w.bodies.map (integrateBody w.gravity dt))).get
        ⟨i, by rw [hup] at h2; exact h2⟩ := by
    congr 1
  constructor
  · rw [hfin, hbcv, hint.1]
  · intro hv
    rw [hfin, hbcpos (by rw [hint.2.1, hinv]), hint.2.2 hv]

/-- Witness for C1: the zero-mass body of `restWorld` keeps its velocity,
and — being at rest — its position, under an `Update(1)`. -/
theorem C1_zero_mass_frozen_witness :
    ∃ h2 : 0 < ((restWorld.Update 1).bodies).length,
      ((restWorld.Update 1).bodies.get ⟨0, h2⟩).Velocity =
          (restWorld.bodies.get ⟨0, by simp [restWorld]⟩).Velocity ∧
        ((restWorld.bodies.get ⟨0, by simp [restWorld]⟩).Velocity = ⟨0, 0⟩ →
          ((restWorld.Update 1).bodies.get ⟨0, h2⟩).Position =
            (restWorld.bodies.get ⟨0, by simp [restWorld]⟩).Position) :=
  C1_zero_mass_frozen restWorld 1 0 (by simp [restWorld]) rfl rfl

end physics

namespace physics

/-- C1 counterexample: a stored body with mass 0 and inverse mass 0 but
velocity `(1,0)` is displaced by `Update(1)` — its position moves from
`(0,0)` to `(1,0)` because the integrator still adds `velocity * dt` — so a
zero-mass body's position is not unconditionally unchanged. -/
theorem C1_counterexample :
    ((driftWorld.Update 1).bodies.map (fun b => b.Position)) ≠
      [(⟨0, 0⟩ : Vector2)] := by
  simp only [driftWorld, driftBody, PWorld.Update, List.map_cons, List.map_nil,
    integrateBody]
  rw [checkCollisionsList_singleton _ rfl]
  norm_num [Vector2.Add, Vector2.Mul]

end physics

namespace physics

theorem length_zero_of_eq (b1 b2 : RigidBody) (h : b2.Position = b1.Position) :
    (Vector2.Sub b2.Position b1.Position).Length = 0 := by
  rw [h]
  simp [Vector2.Sub, Vector2.Length]

theorem length_ne_zero_of_ne (b1 b2 : RigidBody) (h : b2.Position ≠ b1.Position) :
    (Vector2.Sub b2.Position b1.Position).Length ≠ 0 := by
  intro hlen0
  apply h
  simp only [Vector2.Sub, Vector2.Length] at hlen0
  have hsum := Real.sqrt_eq_zero'.mp hlen0
  have hx : b2.Position.X - b1.Position.X = 0 := by nlinarith [mul_self_nonneg (b2.Position.X - b1.Position.X), mul_self_nonneg (b2.Position.Y - b1.Position.Y)]
  have hy : b2.Position.Y - b1.Position.Y = 0 := by nlinarith [mul_self_nonneg (b2.Position.X - b1.Position.X), mul_self_nonneg (b2.Position.Y - b1.Position.Y)]
  rw [show b2.Position = ⟨b2.Position.X, b2.Position.Y⟩ from rfl,
    show b1.Position = ⟨b1.Position.X, b1.Position.Y⟩ from rfl]
  congr 1 <;> linarith

/-- C5 (amended): the overlap used for positional correction equals
`(width1 + width2)/2` minus the actual center distance whenever the centers
differ; when the centers coincide exactly, the separation direction is the
unit vector `(1, 0)` as claimed, but the overlap is `(width1 + width2)/2 - 1`
— the code substitutes the fallback distance `1` (not the actual zero center
distance) into the overlap formula. -/
theorem C5_overlap_resolution (b1 b2 : RigidBody) :
    (b2.Position = b1.Position →
        resolveNormal b1 b2 = ⟨1, 0⟩ ∧
          resolveOverlap b1 b2 = (b1.Width + b2.Width) / 2 - 1) ∧
      (b2.Position ≠ b1.Position →
        resolveOverlap b1 b2 =
          (b1.Width + b2.Width) / 2 - (Vector2.Sub b2.Position b1.Position).Length) := by
  constructor
  · intro heq
    have hlen := length_zero_of_eq b1 b2 heq
    constructor
    · unfold resolveNormal resolveSeparation resolveDistance
      simp only [hlen, if_pos rfl]
      norm_num [Vector2.Div]
    · unfold resolveOverlap resolveDistance
      simp only [hlen]
      norm_num
  · intro hne
    have hlen := length_ne_zero_of_ne b1 b2 hne
    unfold resolveOverlap resolveDistance
    simp only [if_neg hlen]

/-- C5 counterexample: two unit-width bodies whose centers coincide at the
origin. The claim's formula gives overlap `(1+1)/2 - 0 = 1`, but the code
computes `(1+1)/2 - 1 = 0` (the substituted fallback distance is reused), so
the overlap used differs from widths-sum-over-two minus the actual distance. -/
theorem C5_counterexample :
    resolveOverlap coinA coinB ≠
      (coinA.Width + coinB.Width) / 2 -
        (Vector2.Sub coinB.Position coinA.Position).Length := by
  have hov : resolveOverlap coinA coinB = 0 := by
    unfold resolveOverlap resolveDistance coinA coinB
    norm_num [Vector2.Sub, Vector2.Length]
  rw [hov]
  unfold coinA coinB
  norm_num [Vector2.Sub, Vector2.Length]

end physics

namespace physics

theorem mergeActives_append_inactive (b : RigidBody) (hb : b.Active = false)
    (ys : List RigidBody) :
    ∀ (xs u : List RigidBody),
      mergeActives (xs ++ b :: ys) u =
        (mergeActives (xs ++ ys) u).take xs.length ++
          b :: (mergeActives (xs ++ ys) u).drop xs.length := by
  intro xs
  induction xs with
  | nil =>
    intro u
    simp [mergeActives, hb]
  | cons a rest ih =>
    intro u
    by_cases ha : a.Active = true
    · cases u with
      | nil =>
        simp only [List.cons_append, mergeActives, ha, if_true, List.length_cons,
          List.take_succ_cons, List.drop_succ_cons, List.append_eq]
        rw [ih []]
      | cons v vs =>
        simp only [List.cons_append, mergeActives, ha, if_true, List.length_cons,
          List.take_succ_cons, List.drop_succ_cons, List.append_eq]
        rw [ih vs]
    · simp only [List.cons_append, mergeActives, ha, if_neg, Bool.false_eq_true,
        not_false_eq_true, List.length_cons, List.take_succ_cons, List.drop_succ_cons,
        List.append_eq]
      rw [ih u]

/-- C6: an inactive body is frozen by `Update(dt)` — its position, velocity
and accumulated force are exactly unchanged (it reappears verbatim at its
slot) — and it takes part in no collision test or resolution: the other
bodies evolve exactly as they would in the world with the inactive body
removed. -/
theorem C6_inactive_frozen (w : PWorld) (xs ys : List RigidBody) (b : RigidBody)
    (dt : ℝ) (hw : w.bodies = xs ++ b :: ys) (hb : b.Active = false) :
    (w.Update dt).bodies =
      ((PWorld.Update ⟨xs ++ ys, w.gravity, w.timeStep⟩ dt).bodies).take xs.length ++
        b :: ((PWorld.Update ⟨xs ++ ys, w.gravity, w.timeStep⟩ dt).bodies).drop
          xs.length := by
  have hib : integrateBody w.gravity dt b = b := by
    unfold integrateBody
    simp [hb]
  have h1 : (w.Update dt).bodies =
      checkCollisionsList ((xs ++ b :: ys).map (integrateBody w.gravity dt)) := by
    rw [show (w.Update dt).bodies =
      checkCollisionsList (w.bodies.map (integrateBody w.gravity dt)) from rfl, hw]
  rw [h1, List.map_append, List.map_cons, hib]
  unfold checkCollisionsList
  rw [mergeActives_append_inactive b hb]
  rw [show ((xs.map (integrateBody w.gravity dt)) ++ b :: (ys.map (integrateBody w.gravity dt))).filter (fun x => x.Active) =
      ((xs.map (integrateBody w.gravity dt)) ++ (ys.map (integrateBody w.gravity dt))).filter (fun x => x.Active) by
    simp [List.filter_append, List.filter_cons, hb]]
  rw [show (PWorld.Update ⟨xs ++ ys, w.gravity, w.timeStep⟩ dt).bodies =
    checkCollisionsList ((xs ++ ys).map (integrateBody w.gravity dt)) from rfl]
  unfold checkCollisionsList
  rw [List.map_append, List.length_map]

/-- Witness for C6: a world of one inactive and one active body; the update
result is the inactive body, verbatim, in front of the active body's update
computed as if alone. -/
theorem C6_inactive_frozen_witness :
    ((⟨[inactBody, actBody], ⟨0, -9.81⟩, 1 / 60⟩ : PWorld).Update 1).bodies =
      ((PWorld.Update ⟨[] ++ [actBody], ⟨0, -9.81⟩, 1 / 60⟩ 1).bodies).take
          (List.length ([] : List RigidBody)) ++
        inactBody :: ((PWorld.Update ⟨[] ++ [actBody], ⟨0, -9.81⟩, 1 / 60⟩ 1).bodies).drop
          (List.length ([] : List RigidBody)) :=
  C6_inactive_frozen ⟨[inactBody, actBody], ⟨0, -9.81⟩, 1 / 60⟩ [] [actBody]
    inactBody 1 rfl rfl

end physics
